import Mathlib

/-!
Verification of the Verlet particle solver in `src/main.rs`.

The solver works on `f32` vectors (macroquad `Vec2`); we embed it over the
exact reals, so every arithmetic identity below is exact.  Division by zero
is total in this embedding (`x / 0 = 0`), standing in for the `NaN`
produced by the `f32` code on the degenerate zero-distance path; the
theorems about that path show what the control flow does, and the `NaN`
aspect itself is discussed where relevant.
-/

noncomputable section

namespace Verlet

/-- 2-dimensional vector, modelling macroquad `Vec2` over the reals. -/
abbrev Vec2 : Type := ℝ × ℝ

/-- Euclidean length of a vector, modelling `Vec2::length`. -/
def Vec2.length (v : Vec2) : ℝ := Real.sqrt (v.1 ^ 2 + v.2 ^ 2)

/-- Componentwise division of a vector by a scalar, modelling `Vec2 / f32`
(the expression `collision_axis / distance` in `solve_collisions`). -/
def Vec2.sdiv (v : Vec2) (c : ℝ) : Vec2 := (v.1 / c, v.2 / c)

/-- Particle radius, `const RADIUS: f32 = 3.0;` (src/main.rs line 4). -/
def RADIUS : ℝ := 3

/-- Kinematic state of one particle, `struct VerletObject` (lines 8-13). -/
@[ext]
structure VerletObject where
  position_current : Vec2
  position_old : Vec2
  acceleration : Vec2

namespace VerletObject

/-- Constructor `VerletObject::new` (lines 16-22). -/
def new (position : Vec2) : VerletObject :=
  { position_current := position
    position_old := position
    acceleration := (0, 0) }

/-- Integration step `VerletObject::update_position` (lines 24-32):
`velocity = position_current - position_old`; save the current position
into `position_old`; add `velocity + acceleration * dt * dt` to
`position_current`; reset `acceleration` to zero. -/
def update_position (o : VerletObject) (dt : ℝ) : VerletObject :=
  let velocity := o.position_current - o.position_old
  { position_current := o.position_current + (velocity + (dt * dt) • o.acceleration)
    position_old := o.position_current
    acceleration := (0, 0) }

/-- Force accumulation `VerletObject::accelerate` (lines 34-36). -/
def accelerate (o : VerletObject) (a : Vec2) : VerletObject :=
  { o with acceleration := o.acceleration + a }

/-- Accessor `VerletObject::get_position` (lines 38-40). -/
def get_position (o : VerletObject) : Vec2 := o.position_current

end VerletObject

/-- Solver state, `struct Solver` (lines 51-55): only the gravity vector. -/
structure Solver where
  gravity : Vec2

namespace Solver

/-- Constructor `Solver::new` (lines 58-64): gravity `(0.0, 1000.0)`. -/
def new : Solver := { gravity := (0, 1000) }

/-- Phase `Solver::apply_gravity` (lines 98-104); the wall-clock timing
return value is instrumentation and is dropped from the model. -/
def apply_gravity (objects : List VerletObject) (gravity : Vec2) : List VerletObject :=
  objects.map (fun o => o.accelerate gravity)

/-- Phase `Solver::update_positions` (lines 106-112); the rayon parallel
iteration touches each particle independently, so it is a plain map. -/
def update_positions (objects : List VerletObject) (dt : ℝ) : List VerletObject :=
  objects.map (fun o => o.update_position dt)

/-- Body of the per-particle loop in `Solver::apply_constraints`
(lines 118-133): four sequential `if` statements clamping `x` below,
`x` above, `y` below, `y` above; each later test reads the position as
left by the earlier writes.  `width` and `height` model the values of
`screen_width()` and `screen_height()` read at lines 116-117. -/
def constrain (width height : ℝ) (o : VerletObject) : VerletObject :=
  let o1 := if o.get_position.1 < 0 + RADIUS + 1 then
    { o with position_current := (0 + RADIUS + 1, o.position_current.2) } else o
  let o2 := if o1.get_position.1 > width - RADIUS - 1 then
    { o1 with position_current := (width - RADIUS - 1, o1.position_current.2) } else o1
  let o3 := if o2.get_position.2 < 0 + RADIUS + 1 then
    { o2 with position_current := (o2.position_current.1, 0 + RADIUS + 1) } else o2
  if o3.get_position.2 > height - RADIUS - 1 then
    { o3 with position_current := (o3.position_current.1, height - RADIUS - 1) } else o3

/-- Phase `Solver::apply_constraints` (lines 114-135). -/
def apply_constraints (width height : ℝ) (objects : List VerletObject) : List VerletObject :=
  objects.map (constrain width height)

/-- Body of the pair loop in `Solver::solve_collisions` (lines 144-152),
acting on the two current positions: compute the collision axis and its
length, and when the distance is below `2 * RADIUS` push both endpoints
apart by half the overlap along the normalized axis. -/
def resolvePair (p q : Vec2) : Vec2 × Vec2 :=
  let collision_axis := p - q
  let distance := Vec2.length collision_axis
  if distance < 2 * RADIUS then
    let n := Vec2.sdiv collision_axis distance
    let delta := 2 * RADIUS - distance
    (p + (0.5 * delta) • n, q - (0.5 * delta) • n)
  else
    (p, q)

/-- One iteration of the double loop of `Solver::solve_collisions`:
read `objects[i]` and `objects[j]`, write back their corrected
`position_current` fields. -/
def collideAt (objects : List VerletObject) (i j : ℕ) : List VerletObject :=
  match objects[i]?, objects[j]? with
  | some oi, some oj =>
      let r := resolvePair oi.position_current oj.position_current
      (objects.set i { oi with position_current := r.1 }).set j
        { oj with position_current := r.2 }
  | _, _ => objects

/-- Phase `Solver::solve_collisions` (lines 137-157): brute-force double
loop over all index pairs `i < j`. -/
def solve_collisions (objects : List VerletObject) : List VerletObject :=
  let object_count := objects.length
  (List.range object_count).foldl
    (fun acc i =>
      (List.range' (i + 1) (object_count - (i + 1))).foldl
        (fun acc2 j => collideAt acc2 i j) acc)
    objects

/-- Step driver `Solver::update` (lines 66-89): `sub_dt = dt / substeps`,
then `substeps` iterations of gravity, constraints, collisions,
integration, in that order.  The timing struct is dropped. -/
def update (s : Solver) (width height : ℝ) (objects : List VerletObject)
    (dt : ℝ) (substeps : ℕ) : List VerletObject :=
  let sub_dt := dt / (substeps : ℝ)
  (List.range substeps).foldl
    (fun objs _ =>
      update_positions (solve_collisions (apply_constraints width height
        (apply_gravity objs s.gravity))) sub_dt)
    objects

end Solver

/-- C1: `update_position(dt)` performs exactly the Verlet update — the
new `position_current` is the old one plus `velocity + acceleration·dt²`
with `velocity = position_current - position_old`, `position_old`
becomes the old `position_current`, and `acceleration` is zeroed; and for
a particle with zero acceleration the implicit velocity is preserved and
`position_current` advances by exactly that implicit velocity. -/
theorem update_position_verlet_step (o : VerletObject) (dt : ℝ) :
    o.update_position dt =
      { position_current :=
          o.position_current + ((o.position_current - o.position_old) + (dt * dt) • o.acceleration)
        position_old := o.position_current
        acceleration := (0, 0) } ∧
    (o.acceleration = 0 →
      (o.update_position dt).position_current - (o.update_position dt).position_old =
        o.position_current - o.position_old ∧
      (o.update_position dt).position_current =
        o.position_current + (o.position_current - o.position_old)) := by
  refine ⟨rfl, fun h => ⟨?_, ?_⟩⟩
  · simp [VerletObject.update_position, h]
  · simp [VerletObject.update_position, h]

/-- Witness for C1 at a concrete particle with zero acceleration. -/
theorem update_position_verlet_step_witness :
    (VerletObject.mk (3, 4) (1, 2) (0, 0)).update_position 2 =
      { position_current :=
          ((3 : ℝ), (4 : ℝ)) + ((((3 : ℝ), (4 : ℝ)) - ((1 : ℝ), (2 : ℝ))) +
            ((2 : ℝ) * 2) • ((0 : ℝ), (0 : ℝ)))
        position_old := (3, 4)
        acceleration := (0, 0) } ∧
    (((VerletObject.mk (3, 4) (1, 2) (0, 0)).update_position 2).position_current -
        ((VerletObject.mk (3, 4) (1, 2) (0, 0)).update_position 2).position_old =
      ((3 : ℝ), (4 : ℝ)) - ((1 : ℝ), (2 : ℝ)) ∧
      ((VerletObject.mk (3, 4) (1, 2) (0, 0)).update_position 2).position_current =
        ((3 : ℝ), (4 : ℝ)) + (((3 : ℝ), (4 : ℝ)) - ((1 : ℝ), (2 : ℝ)))) := by
  have h := update_position_verlet_step (VerletObject.mk (3, 4) (1, 2) (0, 0)) 2
  exact ⟨h.1, h.2 rfl⟩

/-- Scalar clamp performed by the two sequential axis tests of
`apply_constraints`: the lower-bound test, then the upper-bound test on
the possibly updated value. -/
def clampAxis (lo hi x : ℝ) : ℝ :=
  let x1 := if x < lo then lo else x
  if x1 > hi then hi else x1

/-- Closed form of `constrain`: the two axes are clamped independently
and `position_old` and `acceleration` are untouched. -/
theorem constrain_eq (width height : ℝ) (o : VerletObject) :
    Solver.constrain width height o =
      { position_current :=
          (clampAxis (0 + RADIUS + 1) (width - RADIUS - 1) o.position_current.1,
           clampAxis (0 + RADIUS + 1) (height - RADIUS - 1) o.position_current.2)
        position_old := o.position_old
        acceleration := o.acceleration } := by
  by_cases h1 : o.position_current.1 < 0 + RADIUS + 1 <;>
  by_cases h3 : o.position_current.2 < 0 + RADIUS + 1 <;>
  simp only [Solver.constrain, clampAxis, VerletObject.get_position, h1, h3,
    ite_true, ite_false, if_true, if_false] <;>
  split_ifs <;> rfl

theorem clampAxis_of_lt {lo hi x : ℝ} (h : x < lo) (hlohi : lo ≤ hi) :
    clampAxis lo hi x = lo := by
  unfold clampAxis
  rw [if_pos h, if_neg (not_lt.2 hlohi)]

theorem clampAxis_of_gt {lo hi x : ℝ} (h : hi < x) (hlohi : lo ≤ hi) :
    clampAxis lo hi x = hi := by
  unfold clampAxis
  rw [if_neg (not_lt.2 (hlohi.trans h.le)), if_pos h]

theorem clampAxis_of_mem {lo hi x : ℝ} (h1 : lo ≤ x) (h2 : x ≤ hi) :
    clampAxis lo hi x = x := by
  unfold clampAxis
  rw [if_neg (not_lt.2 h1), if_neg (not_lt.2 h2)]

/-- Variant of `constrain` that runs the two y-axis tests before the two
x-axis tests; written out from the spec sentence that the order of the
axis checks does not matter, to be compared with `constrain`. -/
def constrainYX (width height : ℝ) (o : VerletObject) : VerletObject :=
  let o1 := if o.get_position.2 < 0 + RADIUS + 1 then
    { o with position_current := (o.position_current.1, 0 + RADIUS + 1) } else o
  let o2 := if o1.get_position.2 > height - RADIUS - 1 then
    { o1 with position_current := (o1.position_current.1, height - RADIUS - 1) } else o1
  let o3 := if o2.get_position.1 < 0 + RADIUS + 1 then
    { o2 with position_current := (0 + RADIUS + 1, o2.position_current.2) } else o2
  if o3.get_position.1 > width - RADIUS - 1 then
    { o3 with position_current := (width - RADIUS - 1, o3.position_current.2) } else o3

theorem constrainYX_eq (width height : ℝ) (o : VerletObject) :
    constrainYX width height o =
      { position_current :=
          (clampAxis (0 + RADIUS + 1) (width - RADIUS - 1) o.position_current.1,
           clampAxis (0 + RADIUS + 1) (height - RADIUS - 1) o.position_current.2)
        position_old := o.position_old
        acceleration := o.acceleration } := by
  by_cases h1 : o.position_current.1 < 0 + RADIUS + 1 <;>
  by_cases h3 : o.position_current.2 < 0 + RADIUS + 1 <;>
  simp only [constrainYX, clampAxis, VerletObject.get_position, h1, h3,
    ite_true, ite_false, if_true, if_false] <;>
  split_ifs <;> rfl

/-- C3: `apply_constraints` clamps each coordinate axis independently to
the box `[r+1, width-r-1] × [r+1, height-r-1]`: a coordinate outside the
interval is set exactly to the nearest violated bound, a coordinate
inside is unchanged, and swapping the order of the axis checks gives the
same result. -/
theorem apply_constraints_clamps (width height : ℝ)
    (hw : RADIUS + 1 ≤ width - RADIUS - 1) (hh : RADIUS + 1 ≤ height - RADIUS - 1)
    (o : VerletObject) :
    ((o.position_current.1 < RADIUS + 1 →
        (Solver.constrain width height o).position_current.1 = RADIUS + 1) ∧
     (width - RADIUS - 1 < o.position_current.1 →
        (Solver.constrain width height o).position_current.1 = width - RADIUS - 1) ∧
     (RADIUS + 1 ≤ o.position_current.1 → o.position_current.1 ≤ width - RADIUS - 1 →
        (Solver.constrain width height o).position_current.1 = o.position_current.1)) ∧
    ((o.position_current.2 < RADIUS + 1 →
        (Solver.constrain width height o).position_current.2 = RADIUS + 1) ∧
     (height - RADIUS - 1 < o.position_current.2 →
        (Solver.constrain width height o).position_current.2 = height - RADIUS - 1) ∧
     (RADIUS + 1 ≤ o.position_current.2 → o.position_current.2 ≤ height - RADIUS - 1 →
        (Solver.constrain width height o).position_current.2 = o.position_current.2)) ∧
    constrainYX width height o = Solver.constrain width height o := by
  rw [constrain_eq, constrainYX_eq]
  have e : (0 : ℝ) + RADIUS + 1 = RADIUS + 1 := by norm_num
  rw [e]
  refine ⟨⟨fun h1 => ?_, fun h1 => ?_, fun h1 h2 => ?_⟩,
    ⟨fun h1 => ?_, fun h1 => ?_, fun h1 h2 => ?_⟩, rfl⟩
  · exact clampAxis_of_lt h1 hw
  · exact clampAxis_of_gt h1 hw
  · exact clampAxis_of_mem h1 h2
  · exact clampAxis_of_lt h1 hh
  · exact clampAxis_of_gt h1 hh
  · exact clampAxis_of_mem h1 h2

/-- Witness for C3: box `1000 × 800`, a particle at `(2, 900)` — the x
coordinate is below the lower bound, the y coordinate above the upper. -/
theorem apply_constraints_clamps_witness :
    (RADIUS + 1 ≤ 1000 - RADIUS - 1 ∧ RADIUS + 1 ≤ 800 - RADIUS - 1) ∧
    ((Solver.constrain 1000 800 (VerletObject.new (2, 900))).position_current.1 = RADIUS + 1 ∧
     (Solver.constrain 1000 800 (VerletObject.new (2, 900))).position_current.2 = 800 - RADIUS - 1) := by
  have hw : RADIUS + 1 ≤ (1000 : ℝ) - RADIUS - 1 := by norm_num [RADIUS]
  have hh : RADIUS + 1 ≤ (800 : ℝ) - RADIUS - 1 := by norm_num [RADIUS]
  have h := apply_constraints_clamps 1000 800 hw hh (VerletObject.new (2, 900))
  refine ⟨⟨hw, hh⟩, h.1.1 (by norm_num [VerletObject.new, RADIUS]),
    h.2.1.2.1 (by norm_num [VerletObject.new, RADIUS])⟩

/-- Acceleration is zeroed by every integration call. -/
theorem update_position_acceleration (o : VerletObject) (dt : ℝ) :
    (o.update_position dt).acceleration = 0 := rfl

/-- C6: immediately after any `update_position` call the acceleration is
exactly zero regardless of what was accumulated before; hence for any
`Solver::update` call with `substeps ≥ 1`, if every particle has zero
acceleration on entry then every particle has zero acceleration on
return. -/
theorem acceleration_reset (s : Solver) (width height dt : ℝ)
    (objects : List VerletObject) (substeps : ℕ) (hk : 1 ≤ substeps) :
    (∀ (o : VerletObject) (d : ℝ), (o.update_position d).acceleration = 0) ∧
    ((∀ o ∈ objects, o.acceleration = 0) →
      ∀ o ∈ s.update width height objects dt substeps, o.acceleration = 0) := by
  refine ⟨fun o d => rfl, fun _ o ho => ?_⟩
  obtain ⟨m, rfl⟩ : ∃ m, substeps = m + 1 :=
    ⟨substeps - 1, (Nat.succ_pred_eq_of_pos hk).symm⟩
  simp only [Solver.update, List.range_succ, List.foldl_append, List.foldl_cons,
    List.foldl_nil, Solver.update_positions, List.mem_map] at ho
  obtain ⟨x, _, rfl⟩ := ho
  rfl

/-- Witness for C6 at one particle, one substep. -/
theorem acceleration_reset_witness :
    1 ≤ 1 ∧
    ((∀ (o : VerletObject) (d : ℝ), (o.update_position d).acceleration = 0) ∧
     ((∀ o ∈ [VerletObject.new (50, 50)], o.acceleration = 0) →
       ∀ o ∈ Solver.new.update 100 100 [VerletObject.new (50, 50)] 1 1,
         o.acceleration = 0)) :=
  ⟨le_refl 1, acceleration_reset Solver.new 100 100 1 [VerletObject.new (50, 50)] 1 (le_refl 1)⟩

/-- C5: calling `Solver::update` with `substeps == 0` is a deterministic
no-op — the substep loop runs zero times, so the particle list is
returned unchanged and nothing (in particular no NaN/Inf) is written into
any particle state; the dead value `sub_dt = dt / 0` is never used. -/
theorem update_zero_substeps_noop (s : Solver) (width height dt : ℝ)
    (objects : List VerletObject) :
    s.update width height objects dt 0 = objects := rfl

/-- Projection of the particle fields that constraints and collisions
must not touch: `position_old` and `acceleration`. -/
def skeleton (o : VerletObject) : Vec2 × Vec2 := (o.position_old, o.acceleration)

theorem skeleton_constrain (width height : ℝ) (o : VerletObject) :
    skeleton (Solver.constrain width height o) = skeleton o := by
  rw [constrain_eq]; rfl

theorem set_getElem?_eq {α : Type _} {l : List α} {i : ℕ} {a : α}
    (h : l[i]? = some a) : l.set i a = l := by
  induction l generalizing i with
  | nil => simp at h
  | cons x xs ih =>
    cases i with
    | zero =>
      simp only [List.getElem?_cons_zero, Option.some.injEq] at h
      simp [h]
    | succ n =>
      simp only [List.getElem?_cons_succ] at h
      simp [ih h]

theorem skeleton_collideAt (objects : List VerletObject) (i j : ℕ) :
    (Solver.collideAt objects i j).map skeleton = objects.map skeleton := by
  unfold Solver.collideAt
  cases hi : objects[i]? with
  | none => rfl
  | some oi =>
    cases hj : objects[j]? with
    | none => rfl
    | some oj =>
      have h1 : (objects.map skeleton)[i]? = some (skeleton oi) := by
        rw [List.getElem?_map, hi]; rfl
      have h2 : (objects.map skeleton)[j]? = some (skeleton oj) := by
        rw [List.getElem?_map, hj]; rfl
      dsimp only
      rw [List.map_set, List.map_set]
      have e1 : skeleton { oi with position_current :=
          (Solver.resolvePair oi.position_current oj.position_current).1 } = skeleton oi := rfl
      have e2 : skeleton { oj with position_current :=
          (Solver.resolvePair oi.position_current oj.position_current).2 } = skeleton oj := rfl
      rw [e1, e2, set_getElem?_eq h1, set_getElem?_eq h2]

theorem foldl_skeleton {f : List VerletObject → ℕ → List VerletObject}
    (hf : ∀ acc n, (f acc n).map skeleton = acc.map skeleton) :
    ∀ (l : List ℕ) (init : List VerletObject),
      (l.foldl f init).map skeleton = init.map skeleton := by
  intro l
  induction l with
  | nil => intro init; rfl
  | cons x xs ih =>
    intro init
    rw [List.foldl_cons, ih, hf]

theorem skeleton_solve_collisions (objects : List VerletObject) :
    (Solver.solve_collisions objects).map skeleton = objects.map skeleton := by
  unfold Solver.solve_collisions
  exact foldl_skeleton
    (fun acc i => foldl_skeleton (fun acc2 j => skeleton_collideAt acc2 i j) _ acc)
    _ objects

/-- C7: `apply_constraints` and `solve_collisions` mutate only
`position_current` — the `position_old` and `acceleration` fields of
every particle are unchanged by both passes. -/
theorem constraints_collisions_touch_only_position_current
    (width height : ℝ) (objects : List VerletObject) :
    (Solver.apply_constraints width height objects).map skeleton = objects.map skeleton ∧
    (Solver.solve_collisions objects).map skeleton = objects.map skeleton := by
  constructor
  · unfold Solver.apply_constraints
    rw [List.map_map]
    have e : skeleton ∘ Solver.constrain width height = skeleton :=
      funext fun o => skeleton_constrain width height o
    rw [e]
  · exact skeleton_solve_collisions objects

/-- Length of a componentwise-scaled vector. -/
theorem length_smul_pair (c ax ay : ℝ) :
    Vec2.length (c * ax, c * ay) = |c| * Vec2.length (ax, ay) := by
  unfold Vec2.length
  rw [show (c * ax) ^ 2 + (c * ay) ^ 2 = c ^ 2 * (ax ^ 2 + ay ^ 2) by ring,
    Real.sqrt_mul (sq_nonneg c), Real.sqrt_sq_eq_abs]

theorem resolvePair_of_lt {p q : Vec2} (h : Vec2.length (p - q) < 2 * RADIUS) :
    Solver.resolvePair p q =
      (p + (0.5 * (2 * RADIUS - Vec2.length (p - q))) •
          Vec2.sdiv (p - q) (Vec2.length (p - q)),
       q - (0.5 * (2 * RADIUS - Vec2.length (p - q))) •
          Vec2.sdiv (p - q) (Vec2.length (p - q))) := by
  simp only [Solver.resolvePair]
  rw [if_pos h]

theorem resolvePair_of_ge {p q : Vec2} (h : ¬ Vec2.length (p - q) < 2 * RADIUS) :
    Solver.resolvePair p q = (p, q) := by
  simp only [Solver.resolvePair]
  rw [if_neg h]

/-- C2 (amended): for a pair at nonzero distance `d`, the pair check of
`solve_collisions` pushes the particles apart symmetrically along their
connecting axis — each moved by half the overlap, in opposite
directions — so that the resulting distance is exactly `2 * RADIUS` when
`d < 2 * RADIUS`, and leaves both positions unchanged when
`d ≥ 2 * RADIUS`. -/
theorem collision_separation_pair (p q : Vec2) (h0 : 0 < Vec2.length (p - q)) :
    (Vec2.length (p - q) < 2 * RADIUS →
      Vec2.length ((Solver.resolvePair p q).1 - (Solver.resolvePair p q).2) = 2 * RADIUS ∧
      (Solver.resolvePair p q).1 - p =
        (0.5 * (2 * RADIUS - Vec2.length (p - q))) •
          Vec2.sdiv (p - q) (Vec2.length (p - q)) ∧
      (Solver.resolvePair p q).2 - q = -((Solver.resolvePair p q).1 - p) ∧
      Vec2.length ((Solver.resolvePair p q).1 - p) =
        0.5 * (2 * RADIUS - Vec2.length (p - q))) ∧
    (2 * RADIUS ≤ Vec2.length (p - q) → Solver.resolvePair p q = (p, q)) := by
  have hd0 : Vec2.length (p - q) ≠ 0 := ne_of_gt h0
  refine ⟨fun hlt => ?_, fun hge => resolvePair_of_ge (not_lt.2 hge)⟩
  have hdisp : (Solver.resolvePair p q).1 - p =
      (0.5 * (2 * RADIUS - Vec2.length (p - q))) •
        Vec2.sdiv (p - q) (Vec2.length (p - q)) := by
    rw [resolvePair_of_lt hlt]
    exact add_sub_cancel_left p _
  have hdisp2 : (Solver.resolvePair p q).2 - q = -((Solver.resolvePair p q).1 - p) := by
    rw [resolvePair_of_lt hlt]
    dsimp only
    rw [add_sub_cancel_left]
    exact sub_sub_cancel_left q _
  refine ⟨?_, hdisp, hdisp2, ?_⟩
  · have hkey : (Solver.resolvePair p q).1 - (Solver.resolvePair p q).2 =
        ((2 * RADIUS / Vec2.length (p - q)) * (p.1 - q.1),
         (2 * RADIUS / Vec2.length (p - q)) * (p.2 - q.2)) := by
      rw [resolvePair_of_lt hlt]
      refine Prod.ext ?_ ?_ <;>
        simp only [Prod.fst_sub, Prod.fst_add, Prod.snd_sub, Prod.snd_add,
          Prod.smul_fst, Prod.smul_snd, Vec2.sdiv, smul_eq_mul] <;>
        field_simp <;> ring
    rw [hkey, length_smul_pair]
    have hpos : 0 < 2 * RADIUS / Vec2.length (p - q) :=
      div_pos (by norm_num [RADIUS]) h0
    rw [abs_of_pos hpos]
    have hlen : Vec2.length (p.1 - q.1, p.2 - q.2) = Vec2.length (p - q) := rfl
    rw [hlen, div_mul_cancel₀ _ hd0]
  · have hs : (Solver.resolvePair p q).1 - p =
        ((0.5 * (2 * RADIUS - Vec2.length (p - q)) / Vec2.length (p - q)) * (p.1 - q.1),
         (0.5 * (2 * RADIUS - Vec2.length (p - q)) / Vec2.length (p - q)) * (p.2 - q.2)) := by
      rw [hdisp]
      refine Prod.ext ?_ ?_ <;>
        simp only [Prod.smul_fst, Prod.smul_snd, Vec2.sdiv, smul_eq_mul] <;>
        field_simp
    rw [hs, length_smul_pair]
    have hc : 0 ≤ 0.5 * (2 * RADIUS - Vec2.length (p - q)) := by
      have := hlt
      norm_num
      linarith
    rw [abs_of_nonneg (div_nonneg hc h0.le)]
    have hlen : Vec2.length (p.1 - q.1, p.2 - q.2) = Vec2.length (p - q) := rfl
    rw [hlen, div_mul_cancel₀ _ hd0]

/-- Counterexample for C2 as stated: two coincident particles have
distance `0 < 2 * RADIUS`, yet the pair check does not bring them to
distance `2 * RADIUS` (the normalization divides by zero; in the exact
model the pair is left coincident, in `f32` the positions become NaN —
either way the claimed post-distance fails). -/
theorem collision_separation_fails_at_zero_distance :
    Vec2.length ((((5 : ℝ), (5 : ℝ)) : Vec2) - ((5, 5) : Vec2)) < 2 * RADIUS ∧
    Vec2.length ((Solver.resolvePair ((5 : ℝ), (5 : ℝ)) (5, 5)).1 -
        (Solver.resolvePair ((5 : ℝ), (5 : ℝ)) (5, 5)).2) ≠ 2 * RADIUS := by
  have hz : Vec2.length ((((5 : ℝ), (5 : ℝ)) : Vec2) - ((5, 5) : Vec2)) = 0 := by
    unfold Vec2.length
    norm_num
  have hlt : Vec2.length ((((5 : ℝ), (5 : ℝ)) : Vec2) - ((5, 5) : Vec2)) < 2 * RADIUS := by
    rw [hz]; norm_num [RADIUS]
  refine ⟨hlt, ?_⟩
  rw [resolvePair_of_lt hlt]
  simp only [Vec2.sdiv, Vec2.length, Prod.mk_sub_mk, Prod.mk_add_mk, Prod.smul_mk,
    smul_eq_mul, Prod.fst_sub, Prod.snd_sub, Prod.fst_add, Prod.snd_add]
  norm_num [RADIUS]

/-- Witness for C2 (amended) at the pair `(3,4)`, `(0,0)` of distance 5. -/
theorem collision_separation_pair_witness :
    0 < Vec2.length ((((3 : ℝ), (4 : ℝ)) : Vec2) - ((0, 0) : Vec2)) ∧
    ((Vec2.length ((((3 : ℝ), (4 : ℝ)) : Vec2) - ((0, 0) : Vec2)) < 2 * RADIUS →
      Vec2.length ((Solver.resolvePair ((3 : ℝ), (4 : ℝ)) (0, 0)).1 -
          (Solver.resolvePair ((3 : ℝ), (4 : ℝ)) (0, 0)).2) = 2 * RADIUS ∧
      (Solver.resolvePair ((3 : ℝ), (4 : ℝ)) (0, 0)).1 - ((3 : ℝ), (4 : ℝ)) =
        (0.5 * (2 * RADIUS - Vec2.length ((((3 : ℝ), (4 : ℝ)) : Vec2) - ((0, 0) : Vec2)))) •
          Vec2.sdiv ((((3 : ℝ), (4 : ℝ)) : Vec2) - ((0, 0) : Vec2))
            (Vec2.length ((((3 : ℝ), (4 : ℝ)) : Vec2) - ((0, 0) : Vec2))) ∧
      (Solver.resolvePair ((3 : ℝ), (4 : ℝ)) (0, 0)).2 - ((0 : ℝ), (0 : ℝ)) =
        -((Solver.resolvePair ((3 : ℝ), (4 : ℝ)) (0, 0)).1 - ((3 : ℝ), (4 : ℝ))) ∧
      Vec2.length ((Solver.resolvePair ((3 : ℝ), (4 : ℝ)) (0, 0)).1 - ((3 : ℝ), (4 : ℝ))) =
        0.5 * (2 * RADIUS - Vec2.length ((((3 : ℝ), (4 : ℝ)) : Vec2) - ((0, 0) : Vec2)))) ∧
     (2 * RADIUS ≤ Vec2.length ((((3 : ℝ), (4 : ℝ)) : Vec2) - ((0, 0) : Vec2)) →
      Solver.resolvePair ((3 : ℝ), (4 : ℝ)) (0, 0) = ((3, 4), (0, 0)))) := by
  have hpos : 0 < Vec2.length ((((3 : ℝ), (4 : ℝ)) : Vec2) - ((0, 0) : Vec2)) := by
    unfold Vec2.length
    norm_num
  exact ⟨hpos, collision_separation_pair ((3 : ℝ), (4 : ℝ)) (0, 0) hpos⟩

/-- C4: at the failing input of two exactly coincident particles the code
has no epsilon guard — `n = collision_axis / distance` divides by zero.
In this exact-real embedding (where `x / 0 = 0`) the pair is simply left
coincident, i.e. no deterministic fallback direction separates it; in the
`f32` source the same path writes NaN into both positions. -/
theorem coincident_pair_not_separated :
    Solver.resolvePair ((100 : ℝ), (100 : ℝ)) (100, 100) = ((100, 100), (100, 100)) ∧
    Vec2.length ((Solver.resolvePair ((100 : ℝ), (100 : ℝ)) (100, 100)).1 -
        (Solver.resolvePair ((100 : ℝ), (100 : ℝ)) (100, 100)).2) = 0 := by
  have hz : Vec2.length ((((100 : ℝ), (100 : ℝ)) : Vec2) - ((100, 100) : Vec2)) = 0 := by
    unfold Vec2.length
    norm_num
  have hlt : Vec2.length ((((100 : ℝ), (100 : ℝ)) : Vec2) - ((100, 100) : Vec2)) < 2 * RADIUS := by
    rw [hz]; norm_num [RADIUS]
  have he : Solver.resolvePair ((100 : ℝ), (100 : ℝ)) (100, 100) = ((100, 100), (100, 100)) := by
    rw [resolvePair_of_lt hlt]
    refine Prod.ext (Prod.ext ?_ ?_) (Prod.ext ?_ ?_) <;>
      simp only [Vec2.sdiv, Prod.mk_sub_mk, Prod.mk_add_mk, Prod.smul_mk, smul_eq_mul,
        Prod.fst_sub, Prod.snd_sub, Prod.fst_add, Prod.snd_add] <;>
      norm_num
  refine ⟨he, ?_⟩
  rw [he]
  unfold Vec2.length
  norm_num

/-- C10: for a colliding pair at nonzero distance, the two symmetric
corrections of the pair check leave the vector sum of the two
`position_current` values (hence the midpoint of the pair) exactly
unchanged. -/
theorem collision_preserves_midpoint (p q : Vec2)
    (_h0 : 0 < Vec2.length (p - q)) (hlt : Vec2.length (p - q) < 2 * RADIUS) :
    (Solver.resolvePair p q).1 + (Solver.resolvePair p q).2 = p + q := by
  rw [resolvePair_of_lt hlt]
  abel_nf

/-- Witness for C10 at the pair `(3,4)`, `(0,0)` of distance 5. -/
theorem collision_preserves_midpoint_witness :
    (0 < Vec2.length ((((3 : ℝ), (4 : ℝ)) : Vec2) - ((0, 0) : Vec2)) ∧
     Vec2.length ((((3 : ℝ), (4 : ℝ)) : Vec2) - ((0, 0) : Vec2)) < 2 * RADIUS) ∧
    (Solver.resolvePair ((3 : ℝ), (4 : ℝ)) (0, 0)).1 +
        (Solver.resolvePair ((3 : ℝ), (4 : ℝ)) (0, 0)).2 =
      (((3 : ℝ), (4 : ℝ)) : Vec2) + ((0, 0) : Vec2) := by
  have hlen : Vec2.length ((((3 : ℝ), (4 : ℝ)) : Vec2) - ((0, 0) : Vec2)) = 5 := by
    unfold Vec2.length
    norm_num
    rw [show (25 : ℝ) = 5 ^ 2 by norm_num, Real.sqrt_sq (by norm_num)]
  have h0 : 0 < Vec2.length ((((3 : ℝ), (4 : ℝ)) : Vec2) - ((0, 0) : Vec2)) := by
    rw [hlen]; norm_num
  have hlt : Vec2.length ((((3 : ℝ), (4 : ℝ)) : Vec2) - ((0, 0) : Vec2)) < 2 * RADIUS := by
    rw [hlen]; norm_num [RADIUS]
  exact ⟨⟨h0, hlt⟩, collision_preserves_midpoint ((3 : ℝ), (4 : ℝ)) (0, 0) h0 hlt⟩

/-- C8: force accumulation is linear — `accelerate(g1)` then
`accelerate(g2)` then `update_position(dt)` gives exactly the same final
state as `accelerate(g1 + g2)` then `update_position(dt)`. -/
theorem accelerate_additive (o : VerletObject) (g1 g2 : Vec2) (dt : ℝ) :
    ((o.accelerate g1).accelerate g2).update_position dt =
      (o.accelerate (g1 + g2)).update_position dt := by
  simp [VerletObject.accelerate, VerletObject.update_position, add_assoc]

theorem foldl_range_const {α : Type _} (f : α → α) (x : α) (n : ℕ) :
    (List.range n).foldl (fun a _ => f a) x = f^[n] x := by
  induction n with
  | zero => rfl
  | succ m ih =>
    rw [List.range_succ, List.foldl_append, ih, List.foldl_cons, List.foldl_nil,
      Function.iterate_succ_apply']

theorem iterate_on_singleton {F : List VerletObject → List VerletObject}
    {g : VerletObject → VerletObject} (h : ∀ x, F [x] = [g x]) :
    ∀ (n : ℕ) (x : VerletObject), F^[n] [x] = [g^[n] x] := by
  intro n
  induction n with
  | zero => intro x; rfl
  | succ m ih =>
    intro x
    rw [Function.iterate_succ_apply, h, ih, Function.iterate_succ_apply]

/-- Collision pass on a single particle: the inner pair loop is empty. -/
theorem solve_collisions_singleton (o : VerletObject) :
    Solver.solve_collisions [o] = [o] := rfl

/-- One substep of `Solver::update` on a single particle: gravity,
constraint and integration compose; the collision pass is the identity. -/
theorem substep_singleton (g : Vec2) (width height d : ℝ) (o : VerletObject) :
    Solver.update_positions (Solver.solve_collisions (Solver.apply_constraints width height
        (Solver.apply_gravity [o] g))) d =
      [(Solver.constrain width height (o.accelerate g)).update_position d] := by
  simp only [Solver.apply_gravity, Solver.apply_constraints, List.map_cons, List.map_nil]
  rw [solve_collisions_singleton]
  simp only [Solver.update_positions, List.map_cons, List.map_nil]

/-- `Solver::update` on a single particle is the `substeps`-fold iterate
of one substep. -/
theorem update_singleton (s : Solver) (width height dt : ℝ) (o : VerletObject) (k : ℕ) :
    s.update width height [o] dt k =
      [(fun p => (Solver.constrain width height (p.accelerate s.gravity)).update_position
          (dt / (k : ℝ)))^[k] o] := by
  simp only [Solver.update]
  rw [foldl_range_const
    (fun objs => Solver.update_positions (Solver.solve_collisions
      (Solver.apply_constraints width height (Solver.apply_gravity objs s.gravity)))
      (dt / (k : ℝ)))]
  exact iterate_on_singleton
    (fun x => substep_singleton s.gravity width height (dt / (k : ℝ)) x) k o

/-- Closed-form free-fall state used to state the amended substep claim:
after `m` substeps of length `hstep` under gravity `(0, gy)`, starting at
rest at `(px, py)`, the particle sits at vertical offset
`(m(m+1)/2)·gy·hstep²` with implicit vertical velocity `m·gy·hstep²`. -/
def freeFallState (px py gy hstep : ℝ) (m : ℕ) : VerletObject :=
  { position_current := (px, py + ((m : ℝ) * ((m : ℝ) + 1) / 2) * gy * hstep ^ 2)
    position_old := (px, py + ((m : ℝ) * ((m : ℝ) + 1) / 2) * gy * hstep ^ 2
      - (m : ℝ) * gy * hstep ^ 2)
    acceleration := (0, 0) }

/-- One substep advances the free-fall closed form by one index, provided
the current position is inside the constraint box. -/
theorem fall_step (width height px py gy hstep : ℝ) (m : ℕ)
    (hpx1 : RADIUS + 1 ≤ px) (hpx2 : px ≤ width - RADIUS - 1)
    (hylo : RADIUS + 1 ≤ py + ((m : ℝ) * ((m : ℝ) + 1) / 2) * gy * hstep ^ 2)
    (hyhi : py + ((m : ℝ) * ((m : ℝ) + 1) / 2) * gy * hstep ^ 2 ≤ height - RADIUS - 1) :
    (Solver.constrain width height
        ((freeFallState px py gy hstep m).accelerate (0, gy))).update_position hstep
      = freeFallState px py gy hstep (m + 1) := by
  have hacc : (freeFallState px py gy hstep m).accelerate (0, gy) =
      { position_current := (px, py + ((m : ℝ) * ((m : ℝ) + 1) / 2) * gy * hstep ^ 2)
        position_old := (px, py + ((m : ℝ) * ((m : ℝ) + 1) / 2) * gy * hstep ^ 2
          - (m : ℝ) * gy * hstep ^ 2)
        acceleration := (0, gy) } := by
    simp only [freeFallState, VerletObject.accelerate, Prod.mk_add_mk, zero_add, add_zero]
  have e0 : (0 : ℝ) + RADIUS + 1 = RADIUS + 1 := by norm_num
  rw [hacc, constrain_eq, e0]
  dsimp only
  rw [clampAxis_of_mem hpx1 hpx2, clampAxis_of_mem hylo hyhi]
  simp only [VerletObject.update_position, freeFallState]
  refine VerletObject.ext (Prod.ext ?_ ?_) (Prod.ext ?_ ?_) rfl <;>
    simp only [Prod.mk_sub_mk, Prod.mk_add_mk, Prod.smul_mk, smul_eq_mul,
      Prod.fst_add, Prod.snd_add, Prod.fst_sub, Prod.snd_sub] <;>
    push_cast <;> ring

/-- Iterating substeps from rest under vertical gravity follows the
free-fall closed form, as long as the whole trajectory stays inside the
constraint box (guaranteed by the stated bounds). -/
theorem fall_iterate (width height px py gy dt : ℝ) (k : ℕ) (hk : 1 ≤ k)
    (hgy : 0 ≤ gy)
    (hpx1 : RADIUS + 1 ≤ px) (hpx2 : px ≤ width - RADIUS - 1)
    (hpy1 : RADIUS + 1 ≤ py) (hpy2 : py + gy * dt ^ 2 ≤ height - RADIUS - 1) :
    ∀ m, m ≤ k →
      (fun p => (Solver.constrain width height (p.accelerate (0, gy))).update_position
          (dt / (k : ℝ)))^[m] (VerletObject.new (px, py))
        = freeFallState px py gy (dt / (k : ℝ)) m := by
  intro m
  induction m with
  | zero =>
    intro _
    simp only [Function.iterate_zero, id_eq, VerletObject.new, freeFallState]
    refine VerletObject.ext (Prod.ext rfl ?_) (Prod.ext rfl ?_) rfl <;> push_cast <;> ring
  | succ n ih =>
    intro hm
    have hnk : n ≤ k := Nat.le_of_succ_le hm
    rw [Function.iterate_succ_apply', ih hnk]
    have hkR : (1 : ℝ) ≤ (k : ℝ) := by exact_mod_cast hk
    have hnR : (n : ℝ) ≤ (k : ℝ) := by exact_mod_cast hnk
    have hTnonneg : 0 ≤ ((n : ℝ) * ((n : ℝ) + 1) / 2) * gy * (dt / (k : ℝ)) ^ 2 := by
      have hn0 : (0 : ℝ) ≤ (n : ℝ) := Nat.cast_nonneg n
      positivity
    have hb : ((n : ℝ) * ((n : ℝ) + 1) / 2) * gy * (dt / (k : ℝ)) ^ 2 ≤ gy * dt ^ 2 := by
      have hk0 : (0 : ℝ) < (k : ℝ) ^ 2 := by positivity
      have htri : (n : ℝ) * ((n : ℝ) + 1) / 2 ≤ (k : ℝ) ^ 2 := by nlinarith
      have h1 : ((n : ℝ) * ((n : ℝ) + 1) / 2) * (gy * (dt / (k : ℝ)) ^ 2) ≤
          (k : ℝ) ^ 2 * (gy * (dt / (k : ℝ)) ^ 2) :=
        mul_le_mul_of_nonneg_right htri (by positivity)
      have h2 : (k : ℝ) ^ 2 * (gy * (dt / (k : ℝ)) ^ 2) = gy * dt ^ 2 := by
        field_simp
      nlinarith [h1, h2]
    exact fall_step width height px py gy (dt / (k : ℝ)) n hpx1 hpx2
      (by linarith) (by linarith)

/-- C9 (amended): for a single particle at rest in free space under
vertical gravity, one frame with `substeps = k` follows the closed form
`position_current.y = py + (k(k+1)/2)·gy·(dt/k)²` — an advance of
`((k+1)/2k)·gy·dt²` — which agrees with the single-substep advance
`gy·dt²` only for `k = 1`: substepping does change the free-fall
trajectory, and for `k ≥ 2` (with nonzero gravity and dt) the final
position differs from the `substeps = 1` result. -/
theorem free_fall_substep_formula (width height px py gy dt : ℝ) (k : ℕ)
    (hk : 1 ≤ k) (hgy : 0 ≤ gy)
    (hpx1 : RADIUS + 1 ≤ px) (hpx2 : px ≤ width - RADIUS - 1)
    (hpy1 : RADIUS + 1 ≤ py) (hpy2 : py + gy * dt ^ 2 ≤ height - RADIUS - 1) :
    (Solver.mk (0, gy)).update width height [VerletObject.new (px, py)] dt k
      = [freeFallState px py gy (dt / (k : ℝ)) k] ∧
    (2 ≤ k → gy ≠ 0 → dt ≠ 0 →
      (Solver.mk (0, gy)).update width height [VerletObject.new (px, py)] dt k
        ≠ (Solver.mk (0, gy)).update width height [VerletObject.new (px, py)] dt 1) := by
  have hmain : ∀ (j : ℕ), 1 ≤ j →
      (Solver.mk (0, gy)).update width height [VerletObject.new (px, py)] dt j
        = [freeFallState px py gy (dt / (j : ℝ)) j] := by
    intro j hj
    rw [update_singleton]
    exact congrArg (fun o => [o])
      (fall_iterate width height px py gy dt j hj hgy hpx1 hpx2 hpy1 hpy2 j le_rfl)
  refine ⟨hmain k hk, fun hk2 hgy0 hdt0 hcontra => ?_⟩
  rw [hmain k hk, hmain 1 le_rfl] at hcontra
  simp only [List.cons.injEq, and_true, freeFallState, VerletObject.mk.injEq,
    Prod.mk.injEq] at hcontra
  obtain ⟨⟨-, hy⟩, -⟩ := hcontra
  have hkR : (2 : ℝ) ≤ (k : ℝ) := by exact_mod_cast hk2
  have hk0 : (k : ℝ) ≠ 0 := by positivity
  have hy2 : ((k : ℝ) * ((k : ℝ) + 1) / 2) * gy * (dt / (k : ℝ)) ^ 2 = gy * dt ^ 2 := by
    push_cast at hy
    linear_combination hy
  have hA : gy * dt ^ 2 ≠ 0 := mul_ne_zero hgy0 (pow_ne_zero 2 hdt0)
  have hfac : ((k : ℝ) ^ 2 - (k : ℝ)) * (gy * dt ^ 2) = 0 := by
    field_simp at hy2
    linear_combination -hy2
  rcases mul_eq_zero.mp hfac with h | h
  · nlinarith
  · exact hA h

/-- Counterexample for C9 as stated: a particle at rest at `(500, 500)`
inside a `1000 × 1000` box, gravity `(0, 1000)`, frame `dt = 1/10` —
two substeps land it at `y = 507.5`, one substep at `y = 510`. -/
theorem substep_invariance_fails :
    (Solver.mk ((0 : ℝ), 1000)).update 1000 1000 [VerletObject.new (500, 500)] (1 / 10) 2
      ≠ (Solver.mk ((0 : ℝ), 1000)).update 1000 1000 [VerletObject.new (500, 500)] (1 / 10) 1 := by
  have hbase : ∀ (j : ℕ), 1 ≤ j →
      (Solver.mk ((0 : ℝ), 1000)).update 1000 1000 [VerletObject.new (500, 500)] (1 / 10) j
        = [freeFallState 500 500 1000 ((1 / 10) / (j : ℝ)) j] := by
    intro j hj
    rw [update_singleton]
    refine congrArg (fun o => [o])
      (fall_iterate 1000 1000 500 500 1000 (1 / 10) j hj (by norm_num)
        (by norm_num [RADIUS]) (by norm_num [RADIUS]) (by norm_num [RADIUS])
        (by norm_num [RADIUS]) j le_rfl)
  intro hcontra
  rw [hbase 2 (by norm_num), hbase 1 (by norm_num)] at hcontra
  simp only [List.cons.injEq, and_true, freeFallState, VerletObject.mk.injEq,
    Prod.mk.injEq] at hcontra
  obtain ⟨⟨-, hy⟩, -⟩ := hcontra
  norm_num at hy

/-- Witness for C9 (amended) at the same concrete configuration. -/
theorem free_fall_substep_formula_witness :
    ((1 : ℕ) ≤ 2 ∧ (0 : ℝ) ≤ 1000 ∧ RADIUS + 1 ≤ (500 : ℝ) ∧
      (500 : ℝ) ≤ 1000 - RADIUS - 1 ∧ RADIUS + 1 ≤ (500 : ℝ) ∧
      (500 : ℝ) + 1000 * (1 / 10) ^ 2 ≤ 1000 - RADIUS - 1) ∧
    ((Solver.mk ((0 : ℝ), 1000)).update 1000 1000 [VerletObject.new (500, 500)] (1 / 10) 2
        = [freeFallState 500 500 1000 ((1 / 10) / ((2 : ℕ) : ℝ)) 2] ∧
      (2 ≤ 2 → (1000 : ℝ) ≠ 0 → (1 / 10 : ℝ) ≠ 0 →
        (Solver.mk ((0 : ℝ), 1000)).update 1000 1000 [VerletObject.new (500, 500)] (1 / 10) 2
          ≠ (Solver.mk ((0 : ℝ), 1000)).update 1000 1000
              [VerletObject.new (500, 500)] (1 / 10) 1)) := by
  refine ⟨⟨by norm_num, by norm_num, by norm_num [RADIUS], by norm_num [RADIUS],
    by norm_num [RADIUS], by norm_num [RADIUS]⟩, ?_⟩
  exact free_fall_substep_formula 1000 1000 500 500 1000 (1 / 10) 2 (by norm_num)
    (by norm_num) (by norm_num [RADIUS]) (by norm_num [RADIUS]) (by norm_num [RADIUS])
    (by norm_num [RADIUS])

end Verlet
